import Mathlib

/-!
Shallow embedding of `src/simplex_method.py` (class `SimplexSolver`, method
`solve`).  Real numbers are modelled by `ℚ`; numpy arrays by `List ℚ` and
`List (List ℚ)`.  A numpy operation that raises `ValueError` is modelled by
an `Option` result (`none` = the exception).  The float literal `1e-10` used
as a tolerance in the source is modelled by the exact rational `1 / 10 ^ 10`.

The source file ends abruptly inside the pivot loop (after building the
`ratios` list): the leaving-row selection, the unbounded exit, the pivot
row-reduction, the solution extraction and the construction of the result
dictionary are not present in the source.  Those parts, and only those, are
modelled from the spec (each such definition carries a doc comment starting
with `Modelled from the spec:`); everything else is translated line by line
from the source.
-/

namespace SimplexMethod

abbrev Vec := List ℚ
abbrev Mat := List (List ℚ)

/-- Tolerance threshold: the source uses the float literal `1e-10` in the
optimality test (line 49) and in the ratio test (line 58).  It is written
with `mkRat` so that the kernel can evaluate comparisons against it; the
lemma `eps_eq_div` below proves it equal to `1 / 10 ^ 10`. -/
def eps : ℚ := mkRat 1 (10 ^ 10)

/-- Column count of a matrix, as numpy's `A.shape[1]` reports it for a
well-formed (rectangular) 2-D array. -/
def cols (A : Mat) : Nat := (A.headD []).length

/-- A `List (List ℚ)` value stands for a numpy 2-D array only when it is
rectangular; numpy enforces this at array construction time. -/
abbrev rect (A : Mat) : Prop := ∀ r ∈ A, r.length = cols A

/-- `np.eye m` (line 32): the m × m identity matrix. -/
def eye (m : Nat) : Mat :=
  (List.range m).map fun i => (List.range m).map fun j => if i = j then 1 else 0

/-- `np.hstack [X, Y]` for two 2-D arrays (lines 32 and 38): row-wise
concatenation; raises `ValueError` when the row counts differ. -/
def hstack2 (X Y : Mat) : Option Mat :=
  if X.length = Y.length then some (List.zipWith (fun r s => r ++ s) X Y) else none

/-- `b.reshape(-1, 1)` (line 38): a length-m vector becomes an m × 1 column. -/
def reshapeCol (b : Vec) : Mat := b.map fun x => [x]

/-- `np.vstack [T, r]` for a 2-D array `T` and a 1-D array `r` (line 41):
`r` is promoted to a single row; raises `ValueError` when its length differs
from the width of any row of `T`. -/
def vstackRow (T : Mat) (r : Vec) : Option Mat :=
  if T.all (fun row => row.length == r.length) then some (T ++ [r]) else none

/-- `c_std = np.hstack([c, np.zeros(m)])` (line 33). -/
def c_std (c : Vec) (m : Nat) : Vec := c ++ List.replicate m 0

/-- `cost_row = np.hstack([c_std, ])` (line 39): `np.hstack` of a single
1-D array returns that array unchanged, so the cost row has n + m entries.
The comment in the source (lines 35-37) announces `[c | 0 | 0]`, i.e. a
trailing RHS cell, but no trailing zero is appended here. -/
def cost_row (c : Vec) (m : Nat) : Vec := c_std c m

/-- Lines 27-41 of `solve`: negate `c` when maximizing, add the slack
identity block, append the right-hand side column, and stack the cost row
underneath.  `none` models a numpy `ValueError` escaping from `solve`. -/
def buildTableau (c : Vec) (A : Mat) (b : Vec) (maximize : Bool) : Option Mat :=
  let c := if maximize then c.map Neg.neg else c
  let m := A.length
  (hstack2 A (eye m)).bind fun A_std =>
  (hstack2 A_std (reshapeCol b)).bind fun tab =>
  vstackRow tab (cost_row c m)

/-- Helper for `argmin`: current best value, its index, next index. -/
def argminAux : List ℚ → ℚ → Nat → Nat → Nat
  | [], _, bi, _ => bi
  | v :: rest, bv, bi, k =>
    if v < bv then argminAux rest v k (k + 1) else argminAux rest bv bi (k + 1)

/-- `np.argmin` (line 53): index of the minimum entry, first occurrence on
ties. -/
def argmin : List ℚ → Nat
  | [] => 0
  | x :: xs => argminAux xs x 0 1

/-- Lines 56-62: the ratio list.  For each constraint row `i`, the pair
`(b_i / a_i, i)` when the entry `a_i` of the entering column exceeds the
tolerance, and `(np.inf, i)` otherwise; `np.inf` is modelled by `none`. -/
def ratios (T : Mat) (entering m : Nat) : List (Option ℚ × Nat) :=
  (List.range m).map fun i =>
    if eps < (T.getD i []).getD entering 0 then
      (some ((T.getD i []).getLastD 0 / (T.getD i []).getD entering 0), i)
    else
      (none, i)

/-- Strict comparison of ratio values, with `none` (np.inf) greater than
every finite ratio. -/
def ratioLtB : Option ℚ → Option ℚ → Bool
  | some a, some b => decide (a < b)
  | some _, none => true
  | none, _ => false

/-- Strict lexicographic comparison of `(ratio, row-index)` pairs, exactly
how Python compares the tuples appended on lines 60 and 62. -/
def pairLt (x y : Option ℚ × Nat) : Bool :=
  ratioLtB x.1 y.1 || (x.1 == y.1 && decide (x.2 < y.2))

/-- Modelled from the spec: the leaving-row selection, which is absent from
the truncated source (the source builds the `ratios` list and then ends).
Spec §4.1 step 3: "select the row with the minimum ratio; tie-break by
lowest row index", i.e. Python's `min` over the `(ratio, i)` tuples, which
keeps the earliest minimal element. -/
def selectLeaving : List (Option ℚ × Nat) → Option ℚ × Nat
  | [] => (none, 0)
  | x :: xs => xs.foldl (fun best y => if pairLt y best then y else best) x

/-- Modelled from the spec: the pivot row-reduction, absent from the
truncated source.  Spec §4.1 step 4: "normalize the pivot row by dividing
every entry by the pivot element; for every other row (including the
objective row), subtract (that row's entry in the entering column) ×
(normalized pivot row)". -/
def pivotOp (T : Mat) (prow pcol : Nat) : Mat :=
  let pr := T.getD prow []
  let p := pr.getD pcol 1
  let npr := pr.map fun x => x / p
  (List.range T.length).map fun i =>
    if i = prow then npr
    else
      let row := T.getD i []
      let factor := row.getD pcol 0
      (List.range row.length).map fun j => row.getD j 0 - factor * npr.getD j 0

/-- Terminal statuses the (spec-completed) source can produce.  The spec's
enum also lists `infeasible_origin` and `max_iterations_exceeded`, but the
source contains no negative-`b` check and no iteration cap, so no code path
produces them. -/
inductive Status
  | optimal
  | unbounded
  deriving DecidableEq

/-- Outcome of the pivot loop.  `running` is a modelling artifact: the
source's `while True:` loop (line 45) has no cap, so the embedding consumes
explicit fuel, and `running` records that the loop is still going when the
fuel runs out. -/
inductive LoopOut
  | done (T : Mat) (iterations : Nat) (status : Status)
  | running (T : Mat) (iterations : Nat)
  deriving DecidableEq

/-- The pivot loop, lines 45-62 of the source.  Per iteration: increment the
counter (line 46), test optimality of the objective row (lines 48-50),
select the entering column by `argmin` (line 53), build the ratio list
(lines 56-62).  The leaving-row selection, the unbounded exit and the pivot
are Modelled from the spec, §4.1 steps 3-4 (they are absent from the
truncated source): minimum-ratio row with lowest-index tie-break; all-infinite ratios
mean the problem is unbounded. -/
def simplexLoop (m : Nat) : Nat → Mat → Nat → LoopOut
  | 0, T, iterations => .running T iterations
  | fuel + 1, T, iterations =>
    let iters := iterations + 1
    if ((T.getLastD []).dropLast).all (fun x => decide (-eps ≤ x)) then
      .done T iters .optimal
    else
      let entering := argmin ((T.getLastD []).dropLast)
      match selectLeaving (ratios T entering m) with
      | (none, _) => .done T iters .unbounded
      | (some _, r) => simplexLoop m fuel (pivotOp T r entering) iters

/-- Number of pivot row-reductions the loop actually performs (a measuring
companion to `simplexLoop`, same control flow). -/
def simplexLoopPivots (m : Nat) : Nat → Mat → Nat
  | 0, _ => 0
  | fuel + 1, T =>
    if ((T.getLastD []).dropLast).all (fun x => decide (-eps ≤ x)) then 0
    else
      let entering := argmin ((T.getLastD []).dropLast)
      match selectLeaving (ratios T entering m) with
      | (none, _) => 0
      | (some _, r) => simplexLoopPivots m fuel (pivotOp T r entering) + 1

/-- Modelled from the spec: solution extraction, absent from the truncated
source.  Spec §4.1: "for each original variable column, if it is basic, read
its value from the corresponding row's RHS; otherwise it is 0", where a
basic column "has exactly a single 1 and zeros elsewhere in that column
across all rows" (spec §3). -/
def extractSolution (T : Mat) (m n : Nat) : List ℚ :=
  (List.range n).map fun j =>
    let col := (List.range (m + 1)).map fun i => (T.getD i []).getD j 0
    if col.filter (fun x => decide (x ≠ 0)) = [1] then
      match (List.range m).find? (fun i => decide ((T.getD i []).getD j 0 = 1)) with
      | some i => (T.getD i []).getLastD 0
      | none => 0
    else 0

/-- Modelled from the spec: reporting of the objective value, absent from
the truncated source.  Spec §3: the last cell of the objective row holds
"the current negated objective value"; spec §4.1: `optimal_value` is "the
true objective value, sign-corrected for `maximize` (negate back if
maximization was requested)". -/
def reportValue (T : Mat) (maximize : Bool) : ℚ :=
  let z := -((T.getLastD []).getLastD 0)
  if maximize then -z else z

/-- The result dictionary promised by the docstring of `solve`. -/
structure SimplexResult where
  optimal_value : ℚ
  solution : List ℚ
  status : Status
  iterations : Nat
  deriving DecidableEq

/-- The only exception the code can raise: numpy's `ValueError` from a
shape-mismatched `hstack`/`vstack`.  The source defines no `DimensionError`
and performs no explicit shape validation. -/
inductive PyErr
  | valueError
  deriving DecidableEq

/-- Observable outcome of one call to `solve`. -/
inductive SolveOut
  | raised (e : PyErr)
  | returned (r : SimplexResult)
  | running
  deriving DecidableEq

/-- The whole of `SimplexSolver.solve`, with explicit fuel for the
`while True:` loop.  Tableau assembly follows the source (lines 27-41); the
tail of the computation (result construction) is Modelled from the spec as
documented on the individual definitions. -/
def simplexSolve (fuel : Nat) (c : Vec) (A : Mat) (b : Vec) (maximize : Bool) : SolveOut :=
  match buildTableau c A b maximize with
  | none => .raised .valueError
  | some T =>
    match simplexLoop A.length fuel T 0 with
    | .running _ _ => .running
    | .done T2 iters st =>
      .returned
        { optimal_value := reportValue T2 maximize
          solution := extractSolution T2 A.length (cols A)
          status := st
          iterations := iters }

/-! ### A heap-passing view of `solve`, for the frame property -/

/-- A Python heap object relevant to `solve`: a 1-D or a 2-D numpy array. -/
inductive PyObj
  | vec (v : Vec)
  | mat (M : Mat)
  deriving DecidableEq

/-- The Python heap: allocated array objects, addressed by position. -/
abbrev Heap := List PyObj

/-- Allocate a fresh 1-D array; returns the new heap and the address. -/
def allocV (h : Heap) (v : Vec) : Heap × Nat := (h ++ [.vec v], h.length)

/-- Allocate a fresh 2-D array; returns the new heap and the address. -/
def allocM (h : Heap) (M : Mat) : Heap × Nat := (h ++ [.mat M], h.length)

/-- Overwrite the 2-D array stored at address `a` (in-place mutation). -/
def writeM (h : Heap) (a : Nat) (M : Mat) : Heap := h.set a (.mat M)

/-- Read the 1-D array stored at address `a`. -/
def readV (h : Heap) (a : Nat) : Vec :=
  match h.getD a (.vec []) with
  | .vec v => v
  | .mat _ => []

/-- Read the 2-D array stored at address `a`. -/
def readM (h : Heap) (a : Nat) : Mat :=
  match h.getD a (.mat []) with
  | .mat M => M
  | .vec _ => []

/-- Heap-passing embedding of one call `solver.solve(c, A, b, maximize)`:
`ac`, `aA`, `ab` are the heap addresses of the caller's arrays, and
`verbose` is the one attribute of the solver object.  Every numpy
expression in the source (`-c` on line 28, `np.eye`/`np.hstack` on lines
32-33, `reshape`/`np.hstack` on line 38, the single-array `np.hstack` on
line 39, `np.vstack` on line 41) allocates a fresh array, and the
assignments only rebind local names; the pivot loop mutates the locally
allocated tableau in place (the `writeM` at its fresh address).  The source
contains no in-place operation on an argument array and no attribute
write. -/
def solveOnHeap (h0 : Heap) (verbose : Bool) (ac aA ab : Nat) (maximize : Bool)
    (fuel : Nat) : SolveOut × Heap × Bool :=
  let A := readM h0 aA
  let b := readV h0 ab
  let h1 := if maximize then (allocV h0 ((readV h0 ac).map Neg.neg)).1 else h0
  let cAddr := if maximize then (allocV h0 ((readV h0 ac).map Neg.neg)).2 else ac
  let c := readV h1 cAddr
  let m := A.length
  let h2 := (allocM h1 (eye m)).1
  let eyeAddr := (allocM h1 (eye m)).2
  match hstack2 A (readM h2 eyeAddr) with
  | none => (.raised .valueError, h2, verbose)
  | some As =>
    let h3 := (allocM h2 As).1
    let asAddr := (allocM h2 As).2
    let h4 := (allocV h3 (c_std c m)).1
    let csAddr := (allocV h3 (c_std c m)).2
    let h5 := (allocM h4 (reshapeCol b)).1
    let bcAddr := (allocM h4 (reshapeCol b)).2
    match hstack2 (readM h5 asAddr) (readM h5 bcAddr) with
    | none => (.raised .valueError, h5, verbose)
    | some tab =>
      let h6 := (allocM h5 tab).1
      let tabAddr := (allocM h5 tab).2
      let h7 := (allocV h6 (readV h6 csAddr)).1
      let crAddr := (allocV h6 (readV h6 csAddr)).2
      match vstackRow (readM h7 tabAddr) (readV h7 crAddr) with
      | none => (.raised .valueError, h7, verbose)
      | some T =>
        let h8 := (allocM h7 T).1
        let tAddr := (allocM h7 T).2
        match simplexLoop m fuel (readM h8 tAddr) 0 with
        | .running T2 _ => (.running, writeM h8 tAddr T2, verbose)
        | .done T2 iters st =>
          (.returned { optimal_value := reportValue T2 maximize
                       solution := extractSolution T2 m (cols A)
                       status := st
                       iterations := iters },
           writeM h8 tAddr T2, verbose)

/-! ### Helper lemmas about tableau assembly -/

theorem eps_eq_div : eps = 1 / 10 ^ 10 := by
  rw [eps, Rat.mkRat_eq_div]
  norm_num

theorem eye_length (m : Nat) : (eye m).length = m := by
  simp [eye]

theorem eye_mem_length (m : Nat) : ∀ r ∈ eye m, r.length = m := by
  intro r hr
  simp only [eye, List.mem_map] at hr
  obtain ⟨i, _, rfl⟩ := hr
  simp

theorem zipWith_append_length {X Y : Mat} {a b : Nat}
    (hX : ∀ r ∈ X, r.length = a) (hY : ∀ r ∈ Y, r.length = b) :
    ∀ r ∈ List.zipWith (fun r s => r ++ s) X Y, r.length = a + b := by
  induction X generalizing Y with
  | nil => intro r hr; simp at hr
  | cons x xs ih =>
    cases Y with
    | nil => intro r hr; simp at hr
    | cons y ys =>
      intro r hr
      simp only [List.zipWith_cons_cons, List.mem_cons] at hr
      rcases hr with rfl | hr
      · rw [List.length_append, hX x (List.mem_cons_self x xs), hY y (List.mem_cons_self y ys)]
      · exact ih (fun r h => hX r (List.mem_cons_of_mem x h))
          (fun r h => hY r (List.mem_cons_of_mem y h)) r hr

theorem hstack2_some {X Y : Mat} (h : X.length = Y.length) :
    hstack2 X Y = some (List.zipWith (fun r s => r ++ s) X Y) := by
  simp [hstack2, h]

theorem hstack2_none {X Y : Mat} (h : X.length ≠ Y.length) :
    hstack2 X Y = none := by
  simp [hstack2, h]

theorem vstackRow_none_iff (T : Mat) (r : Vec) :
    vstackRow T r = none ↔ ¬ (∀ row ∈ T, row.length = r.length) := by
  rw [vstackRow]
  by_cases h : (T.all fun row => row.length == r.length) = true
  · rw [if_pos h]
    simp only [List.all_eq_true, beq_iff_eq] at h
    exact iff_of_false (Option.some_ne_none _) (not_not_intro h)
  · rw [if_neg h]
    simp only [List.all_eq_true, beq_iff_eq] at h
    exact iff_of_true rfl h

theorem buildTableau_eq (c : Vec) (A : Mat) (b : Vec) (mx : Bool) :
    buildTableau c A b mx =
      (hstack2 A (eye A.length)).bind fun As =>
      (hstack2 As (reshapeCol b)).bind fun tab =>
      vstackRow tab (cost_row (if mx then c.map Neg.neg else c) A.length) := rfl

/-- Exact characterization of when tableau assembly raises, for a
well-formed `A` with at least one row: stacking fails unless `b` has `m`
entries and `c` has exactly `n + 1` entries — one more than the column
count of `A`, because the cost row built on line 39 is one cell short. -/
theorem buildTableau_none_iff (c : Vec) (A : Mat) (b : Vec) (mx : Bool)
    (hA : rect A) (hm : 1 ≤ A.length) :
    buildTableau c A b mx = none ↔ b.length ≠ A.length ∨ c.length ≠ cols A + 1 := by
  set Z := List.zipWith (fun r s => r ++ s) A (eye A.length) with hZdef
  have h1 : hstack2 A (eye A.length) = some Z := hstack2_some (eye_length A.length).symm
  have hZlen : Z.length = A.length := by
    rw [hZdef, List.length_zipWith, eye_length, Nat.min_self]
  have hZrows : ∀ r ∈ Z, r.length = cols A + A.length :=
    zipWith_append_length hA (eye_mem_length A.length)
  rw [buildTableau_eq, h1, Option.some_bind]
  by_cases hb : b.length = A.length
  · set W := List.zipWith (fun r s => r ++ s) Z (reshapeCol b) with hWdef
    have h2 : hstack2 Z (reshapeCol b) = some W :=
      hstack2_some (by rw [hZlen, reshapeCol, List.length_map, hb])
    have hWlen : W.length = A.length := by
      rw [hWdef, List.length_zipWith, hZlen, reshapeCol, List.length_map, hb, Nat.min_self]
    have hWrows : ∀ r ∈ W, r.length = (cols A + A.length) + 1 :=
      zipWith_append_length hZrows (fun r hr => by
        simp only [reshapeCol, List.mem_map] at hr
        obtain ⟨x, _, rfl⟩ := hr
        rfl)
    rw [h2, Option.some_bind, vstackRow_none_iff]
    have hcr : (cost_row (if mx then c.map Neg.neg else c) A.length).length
        = c.length + A.length := by
      cases mx <;> simp [cost_row, c_std]
    constructor
    · intro hno
      right
      intro hc
      apply hno
      intro row hrow
      rw [hWrows row hrow, hcr, hc]
      omega
    · intro h hall
      rcases h with h | h
      · exact h hb
      · obtain ⟨w, hw⟩ := List.exists_mem_of_length_pos (show 0 < W.length by rw [hWlen]; omega)
        have hlw := hall w hw
        rw [hWrows w hw, hcr] at hlw
        omega
  · have h2 : hstack2 Z (reshapeCol b) = none :=
      hstack2_none (by rw [hZlen, reshapeCol, List.length_map]; exact fun hh => hb hh.symm)
    rw [h2, Option.none_bind]
    exact iff_of_true rfl (Or.inl hb)

/-! ### Helper lemmas about the leaving-row selection -/

theorem pairLt_irrefl (x : Option ℚ × Nat) : pairLt x x = false := by
  rcases x with ⟨r, i⟩
  rcases r with _ | q <;> simp [pairLt, ratioLtB]

theorem pairLt_trans {x y z : Option ℚ × Nat}
    (h1 : pairLt x y = true) (h2 : pairLt y z = true) : pairLt x z = true := by
  rcases x with ⟨a, i⟩; rcases y with ⟨b, j⟩; rcases z with ⟨c, k⟩
  rcases a with _ | a <;> rcases b with _ | b <;> rcases c with _ | c <;>
    simp_all only [pairLt, ratioLtB, Bool.or_eq_true, Bool.and_eq_true,
      decide_eq_true_eq, beq_iff_eq, Option.some.injEq, reduceCtorEq,
      false_or, false_and, or_false, and_true, true_and, or_self] <;>
    try omega
  rcases h1 with h1 | h1 <;> rcases h2 with h2 | h2
  · exact Or.inl (lt_trans h1 h2)
  · exact Or.inl (h2.1 ▸ h1)
  · exact Or.inl (h1.1 ▸ h2)
  · exact Or.inr ⟨h1.1.trans h2.1, by omega⟩

theorem pairLt_connex {x y : Option ℚ × Nat}
    (h1 : pairLt x y = false) (h2 : pairLt y x = false) : x = y := by
  rcases x with ⟨a, i⟩; rcases y with ⟨b, j⟩
  rcases a with _ | a <;> rcases b with _ | b
  · have hij : ¬ i < j := by
      have h := h1
      simp [pairLt, ratioLtB] at h
      omega
    have hji : ¬ j < i := by
      have h := h2
      simp [pairLt, ratioLtB] at h
      omega
    have : i = j := by omega
    rw [this]
  · exact absurd h2 (by simp [pairLt, ratioLtB])
  · exact absurd h1 (by simp [pairLt, ratioLtB])
  · have h1' := h1
    have h2' := h2
    simp [pairLt, ratioLtB] at h1' h2'
    have habe : a = b := le_antisymm h2'.1 h1'.1
    subst habe
    have : i = j := by
      have k1 := h1'.2 rfl
      have k2 := h2'.2 rfl
      omega
    rw [this]

theorem foldl_min_mem (l : List (Option ℚ × Nat)) (acc : Option ℚ × Nat) :
    l.foldl (fun best y => if pairLt y best then y else best) acc = acc ∨
    l.foldl (fun best y => if pairLt y best then y else best) acc ∈ l := by
  induction l generalizing acc with
  | nil => left; rfl
  | cons y ys ih =>
    rw [List.foldl_cons]
    rcases ih (if pairLt y acc then y else acc) with h | h
    · rw [h]
      by_cases hp : pairLt y acc = true
      · rw [if_pos hp]; right; exact List.mem_cons_self _ _
      · rw [if_neg hp]; left; rfl
    · right; exact List.mem_cons_of_mem _ h

theorem foldl_min_le (l : List (Option ℚ × Nat)) (acc : Option ℚ × Nat) :
    pairLt acc (l.foldl (fun best y => if pairLt y best then y else best) acc) = false ∧
    ∀ z ∈ l, pairLt z (l.foldl (fun best y => if pairLt y best then y else best) acc) = false := by
  induction l generalizing acc with
  | nil =>
    refine ⟨pairLt_irrefl acc, ?_⟩
    intro z hz
    simp at hz
  | cons y ys ih =>
    rw [List.foldl_cons]
    by_cases hp : pairLt y acc = true
    · rw [if_pos hp]
      obtain ⟨ihy, ihrest⟩ := ih y
      refine ⟨?_, ?_⟩
      · by_contra hc
        rw [Bool.not_eq_false] at hc
        have := pairLt_trans hp hc
        rw [this] at ihy
        simp at ihy
      · intro z hz
        rcases List.mem_cons.mp hz with rfl | hz
        · exact ihy
        · exact ihrest z hz
    · rw [if_neg hp]
      rw [Bool.not_eq_true] at hp
      obtain ⟨ihacc, ihrest⟩ := ih acc
      refine ⟨ihacc, ?_⟩
      intro z hz
      rcases List.mem_cons.mp hz with rfl | hz
      · by_contra hc
        rw [Bool.not_eq_false] at hc
        by_cases hay : pairLt acc z = true
        · have := pairLt_trans hay hc
          rw [this] at ihacc
          simp at ihacc
        · rw [Bool.not_eq_true] at hay
          have := pairLt_connex hp hay
          subst this
          rw [hc] at ihacc
          simp at ihacc
      · exact ihrest z hz

theorem selectLeaving_mem (x : Option ℚ × Nat) (xs : List (Option ℚ × Nat)) :
    selectLeaving (x :: xs) ∈ x :: xs := by
  rw [selectLeaving]
  rcases foldl_min_mem xs x with h | h
  · rw [h]; exact List.mem_cons_self _ _
  · exact List.mem_cons_of_mem _ h

theorem selectLeaving_min (x : Option ℚ × Nat) (xs : List (Option ℚ × Nat)) :
    ∀ z ∈ x :: xs, pairLt z (selectLeaving (x :: xs)) = false := by
  intro z hz
  rw [selectLeaving]
  obtain ⟨hacc, hrest⟩ := foldl_min_le xs x
  rcases List.mem_cons.mp hz with rfl | hz
  · exact hacc
  · exact hrest z hz

/-! ### The leaving-row selection applied to the ratio list -/

theorem ratios_length (T : Mat) (e m : Nat) : (ratios T e m).length = m := by
  simp [ratios]

theorem mem_ratios {T : Mat} {e m : Nat} {z : Option ℚ × Nat} (hz : z ∈ ratios T e m) :
    ∃ j, j < m ∧ z = (if eps < (T.getD j []).getD e 0 then
        (some ((T.getD j []).getLastD 0 / (T.getD j []).getD e 0), j)
      else (none, j)) := by
  simp only [ratios, List.mem_map, List.mem_range] at hz
  obtain ⟨j, hj, hjz⟩ := hz
  exact ⟨j, hj, hjz.symm⟩

theorem ratios_mem (T : Mat) (e m j : Nat) (hj : j < m) :
    (if eps < (T.getD j []).getD e 0 then
        (some ((T.getD j []).getLastD 0 / (T.getD j []).getD e 0), j)
      else (none, j)) ∈ ratios T e m := by
  simp only [ratios, List.mem_map]
  exact ⟨j, List.mem_range.mpr hj, rfl⟩

theorem selectLeaving_ratios_mem (T : Mat) (e m : Nat) (hm : 0 < m) :
    selectLeaving (ratios T e m) ∈ ratios T e m := by
  cases hr : ratios T e m with
  | nil =>
    exfalso
    have := ratios_length T e m
    rw [hr] at this
    simp at this
    omega
  | cons x xs =>
    exact selectLeaving_mem x xs

theorem selectLeaving_ratios_min {T : Mat} {e m : Nat} :
    ∀ z ∈ ratios T e m, pairLt z (selectLeaving (ratios T e m)) = false := by
  cases hr : ratios T e m with
  | nil => intro z hz; simp at hz
  | cons x xs =>
    exact selectLeaving_min x xs

/-- When every constraint row's entry in the entering column is at most the
tolerance, every ratio is `np.inf` and the selected pair carries `none`. -/
theorem pairLt_some_some_false {a b : ℚ} {i j : Nat}
    (h : pairLt (some a, i) (some b, j) = false) : b ≤ a ∧ (a = b → j ≤ i) := by
  simp only [pairLt, ratioLtB, Bool.or_eq_false_iff, Bool.and_eq_false_iff,
    decide_eq_false_iff_not, beq_eq_false_iff_ne, ne_eq, Option.some.injEq] at h
  refine ⟨not_lt.mp h.1, ?_⟩
  intro he
  rcases h.2 with h2 | h2
  · exact absurd he h2
  · exact not_lt.mp h2

theorem selectLeaving_ratios_none {T : Mat} {e m : Nat}
    (h : ∀ j, j < m → (T.getD j []).getD e 0 ≤ eps) :
    (selectLeaving (ratios T e m)).1 = none := by
  by_cases hm : 0 < m
  · obtain ⟨j, hj, hz⟩ := mem_ratios (selectLeaving_ratios_mem T e m hm)
    rw [hz, if_neg (not_lt.mpr (h j hj))]
  · have hm0 : m = 0 := by omega
    subst hm0
    rfl

/-- When some constraint row's entry in the entering column exceeds the
tolerance, the selected pair is a finite minimum-ratio row, tie-broken by
lowest index. -/
theorem selectLeaving_ratios_some {T : Mat} {e m j : Nat}
    (hj : j < m) (hpos : eps < (T.getD j []).getD e 0) :
    ∃ q r, selectLeaving (ratios T e m) = (some q, r) ∧ r < m ∧
      eps < (T.getD r []).getD e 0 ∧
      q = (T.getD r []).getLastD 0 / (T.getD r []).getD e 0 ∧
      ∀ k, k < m → eps < (T.getD k []).getD e 0 →
        q ≤ (T.getD k []).getLastD 0 / (T.getD k []).getD e 0 ∧
        ((T.getD k []).getLastD 0 / (T.getD k []).getD e 0 = q → r ≤ k) := by
  have hm : 0 < m := Nat.lt_of_le_of_lt (Nat.zero_le j) hj
  obtain ⟨r, hrm, hsr⟩ := mem_ratios (selectLeaving_ratios_mem T e m hm)
  have hzj : (some ((T.getD j []).getLastD 0 / (T.getD j []).getD e 0), j) ∈ ratios T e m := by
    have := ratios_mem T e m j hj
    rw [if_pos hpos] at this
    exact this
  have hminj := selectLeaving_ratios_min _ hzj
  by_cases hposr : eps < (T.getD r []).getD e 0
  · rw [if_pos hposr] at hsr
    refine ⟨(T.getD r []).getLastD 0 / (T.getD r []).getD e 0, r, hsr, hrm, hposr, rfl, ?_⟩
    intro k hk hposk
    have hzk : (some ((T.getD k []).getLastD 0 / (T.getD k []).getD e 0), k) ∈ ratios T e m := by
      have := ratios_mem T e m k hk
      rw [if_pos hposk] at this
      exact this
    have hmink := selectLeaving_ratios_min _ hzk
    rw [hsr] at hmink
    exact pairLt_some_some_false hmink
  · rw [if_neg hposr] at hsr
    rw [hsr] at hminj
    exact absurd hminj (by simp [pairLt, ratioLtB])

/-! ### Step equations for the pivot loop -/

theorem simplexLoop_succ (m fuel : Nat) (T : Mat) (i : Nat) :
    simplexLoop m (fuel + 1) T i =
      if ((T.getLastD []).dropLast).all (fun x => decide (-eps ≤ x)) then
        .done T (i + 1) .optimal
      else
        match selectLeaving (ratios T (argmin ((T.getLastD []).dropLast)) m) with
        | (none, _) => .done T (i + 1) .unbounded
        | (some _, r) =>
          simplexLoop m fuel (pivotOp T r (argmin ((T.getLastD []).dropLast))) (i + 1) := rfl

theorem simplexLoopPivots_succ (m fuel : Nat) (T : Mat) :
    simplexLoopPivots m (fuel + 1) T =
      if ((T.getLastD []).dropLast).all (fun x => decide (-eps ≤ x)) then 0
      else
        match selectLeaving (ratios T (argmin ((T.getLastD []).dropLast)) m) with
        | (none, _) => 0
        | (some _, r) =>
          simplexLoopPivots m fuel (pivotOp T r (argmin ((T.getLastD []).dropLast))) + 1 := rfl

/-! ### Frame lemmas for the heap-passing view -/

theorem take_set_of_le {α : Type} (l : List α) (i : Nat) (x : α) (k : Nat) (h : k ≤ i) :
    (l.set i x).take k = l.take k := by
  induction l generalizing i k with
  | nil => simp
  | cons a as ih =>
    cases i with
    | zero =>
      have hk : k = 0 := by omega
      subst hk
      simp
    | succ n =>
      cases k with
      | zero => simp
      | succ k2 =>
        show a :: (as.set n x).take k2 = a :: as.take k2
        rw [ih n k2 (by omega)]

/-- C10: a call to `solve` mutates no state outside its own locals.  In the
heap-passing embedding, for every starting heap every pre-existing object —
in particular the caller's `c`, `A`, `b` arrays at whatever addresses they
occupy — is unchanged in the final heap, both on normal return and on a
raised error, and the solver object's `verbose` attribute is unchanged.
The embedded source contains no print call, so the side-effect set is
within the claim's bound of optional diagnostic printing. -/
theorem C10_no_external_mutation (h0 : Heap) (verbose : Bool) (ac aA ab : Nat) (mx : Bool)
    (fuel : Nat) :
    (solveOnHeap h0 verbose ac aA ab mx fuel).2.1.take h0.length = h0 ∧
    (solveOnHeap h0 verbose ac aA ab mx fuel).2.2 = verbose := by
  have htake : ∀ (e1 : List PyObj), (h0 ++ e1).take h0.length = h0 :=
    fun e1 => List.take_left h0 e1
  unfold solveOnHeap
  dsimp only [allocV, allocM, writeM]
  (repeat' split) <;>
    refine ⟨?_, rfl⟩ <;>
    (try rw [take_set_of_le _ _ _ _ (by simp only [List.length_append]; omega)]) <;>
    simp only [List.append_assoc] <;>
    exact htake _

/-! ### One-step behaviour of the pivot loop -/

theorem simplexLoop_succ_optimal {m fuel : Nat} {T : Mat} {i : Nat}
    (hopt : ((T.getLastD []).dropLast).all (fun x => decide (-eps ≤ x)) = true) :
    simplexLoop m (fuel + 1) T i = .done T (i + 1) .optimal := by
  rw [simplexLoop_succ, hopt]
  simp

theorem simplexLoop_succ_unbounded {m fuel : Nat} {T : Mat} {i : Nat}
    (hopt : ((T.getLastD []).dropLast).all (fun x => decide (-eps ≤ x)) = false)
    (hsel : (selectLeaving (ratios T (argmin ((T.getLastD []).dropLast)) m)).1 = none) :
    simplexLoop m (fuel + 1) T i = .done T (i + 1) .unbounded := by
  rw [simplexLoop_succ, hopt]
  simp only [Bool.false_eq_true, if_false]
  rcases hq : selectLeaving (ratios T (argmin ((T.getLastD []).dropLast)) m) with ⟨q, r⟩
  rw [hq] at hsel
  dsimp only at hsel
  subst hsel
  rfl

theorem simplexLoop_succ_pivot {m fuel : Nat} {T : Mat} {i : Nat} {q : ℚ} {r : Nat}
    (hopt : ((T.getLastD []).dropLast).all (fun x => decide (-eps ≤ x)) = false)
    (hsel : selectLeaving (ratios T (argmin ((T.getLastD []).dropLast)) m) = (some q, r)) :
    simplexLoop m (fuel + 1) T i =
      simplexLoop m fuel (pivotOp T r (argmin ((T.getLastD []).dropLast))) (i + 1) := by
  rw [simplexLoop_succ, hopt]
  simp only [Bool.false_eq_true, if_false]
  rw [hsel]

theorem simplexLoopPivots_succ_optimal {m fuel : Nat} {T : Mat}
    (hopt : ((T.getLastD []).dropLast).all (fun x => decide (-eps ≤ x)) = true) :
    simplexLoopPivots m (fuel + 1) T = 0 := by
  rw [simplexLoopPivots_succ, hopt]
  simp

theorem simplexLoopPivots_succ_unbounded {m fuel : Nat} {T : Mat}
    (hopt : ((T.getLastD []).dropLast).all (fun x => decide (-eps ≤ x)) = false)
    (hsel : (selectLeaving (ratios T (argmin ((T.getLastD []).dropLast)) m)).1 = none) :
    simplexLoopPivots m (fuel + 1) T = 0 := by
  rw [simplexLoopPivots_succ, hopt]
  simp only [Bool.false_eq_true, if_false]
  rcases hq : selectLeaving (ratios T (argmin ((T.getLastD []).dropLast)) m) with ⟨q, r⟩
  rw [hq] at hsel
  dsimp only at hsel
  subst hsel
  rfl

theorem simplexLoopPivots_succ_pivot {m fuel : Nat} {T : Mat} {q : ℚ} {r : Nat}
    (hopt : ((T.getLastD []).dropLast).all (fun x => decide (-eps ≤ x)) = false)
    (hsel : selectLeaving (ratios T (argmin ((T.getLastD []).dropLast)) m) = (some q, r)) :
    simplexLoopPivots m (fuel + 1) T =
      simplexLoopPivots m fuel (pivotOp T r (argmin ((T.getLastD []).dropLast))) + 1 := by
  rw [simplexLoopPivots_succ, hopt]
  simp only [Bool.false_eq_true, if_false]
  rw [hsel]

/-! ### Claims -/

/-- C1: the claim (like the source's own comment on lines 35-37) says the
tableau built at the start of `solve` is an (m+1) × (n+m+1) matrix whose
last row is `[c | 0...0 | 0]`, with a trailing RHS cell.  In fact, at the
well-dimensioned input c = [1,2], A = [[1,0],[0,1]], b = [3,4]
(m = n = 2), the cost row built on line 39 has only n + m = 4 entries —
`np.hstack([c_std, ])` appends nothing — and the `np.vstack` on line 41
raises `ValueError`, so no tableau is built at all. -/
theorem C1_cost_row_short :
    (cost_row ([1, 2].map Neg.neg) 2).length = 4 ∧
    buildTableau [1, 2] [[1, 0], [0, 1]] [3, 4] true = none := by
  exact ⟨by decide, by decide⟩

/-- C2 counterexample: at the input c = [1,1], A = [[1]], b = [2] — one
constraint row, so m ≥ 1 — tableau assembly does not raise: the length-2
`c` (one more than A's single column) coincidentally makes the cost row as
wide as the constraint rows, and the stacking succeeds. -/
theorem C2_counterexample_assembly_succeeds :
    buildTableau [1, 1] [[1]] [2] true = some [[1, 1, 2], [-1, -1, 0]] := by
  decide

/-- C2 (amended): for every input whose `A` is rectangular with m ≥ 1 rows
and where `b` does not have m entries or `c` does not have exactly
(columns of A) + 1 entries — which covers every well-dimensioned input —
`solve` raises a `ValueError` during tableau assembly, and therefore
returns no result dictionary. -/
theorem C2_raises_during_assembly (c : Vec) (A : Mat) (b : Vec) (mx : Bool)
    (hA : rect A) (hm : 1 ≤ A.length)
    (hdim : b.length ≠ A.length ∨ c.length ≠ cols A + 1) :
    buildTableau c A b mx = none ∧
    ∀ fuel, simplexSolve fuel c A b mx = .raised .valueError := by
  have hnone := (buildTableau_none_iff c A b mx hA hm).mpr hdim
  refine ⟨hnone, fun fuel => ?_⟩
  simp only [simplexSolve, hnone]

/-- C2 witness: the amended theorem applied at the well-dimensioned input
c = [1], A = [[1]], b = [1]. -/
theorem C2_raises_during_assembly_witness :
    buildTableau [1] [[1]] [1] true = none ∧
    simplexSolve 3 [1] [[1]] [1] true = .raised .valueError := by
  have h := C2_raises_during_assembly [1] [[1]] [1] true (by decide) (by decide)
    (Or.inr (by decide))
  exact ⟨h.1, h.2 3⟩

/-- C3: the claim says that on feasible bounded instances the returned
`solution` is feasible.  The code returns no solution on any such
instance: at the spec's own scenario 1 (c = [3,2], A = [[1,1],[1,0],[0,1]],
b = [4,2,3], maximize, expected optimum [2,2]) `solve` raises `ValueError`
while stacking the tableau instead of returning anything. -/
theorem C3_no_solution_returned :
    simplexSolve 100 [3, 2] [[1, 1], [1, 0], [0, 1]] [4, 2, 3] true =
      .raised .valueError := by
  decide

/-- C4: the claim relates `optimal_value` to `c · solution` on results with
status `optimal`.  The code produces no result at all: at the feasible
bounded input c = [2], A = [[1]], b = [3], maximize (expected optimum
value 6 at x = [3]) `solve` raises `ValueError` during tableau assembly. -/
theorem C4_no_optimal_result :
    simplexSolve 50 [2] [[1]] [3] true = .raised .valueError := by
  decide

/-- C5: in a pivot-loop iteration whose optimality test failed, (a) when no
constraint row has an entry above the tolerance in the entering column, the
loop terminates with status `unbounded` — a result state, not a raised
error; (b) otherwise the leaving row is selected by the minimum ratio test
over exactly the constraint rows with entry > ε, with ratio rhs / entry and
ties broken by lowest row index, and the loop pivots on that row and
continues.  The final conjunct is a closed solve-level run in which the
`unbounded` status is reported inside the returned result dictionary. -/
theorem C5_min_ratio_and_unbounded (m fuel : Nat) (T : Mat) (i : Nat)
    (hopt : ((T.getLastD []).dropLast).all (fun x => decide (-eps ≤ x)) = false) :
    ((∀ j, j < m → (T.getD j []).getD (argmin ((T.getLastD []).dropLast)) 0 ≤ eps) →
      simplexLoop m (fuel + 1) T i = .done T (i + 1) .unbounded) ∧
    (∀ j, j < m → eps < (T.getD j []).getD (argmin ((T.getLastD []).dropLast)) 0 →
      ∃ q r,
        selectLeaving (ratios T (argmin ((T.getLastD []).dropLast)) m) = (some q, r) ∧
        r < m ∧ eps < (T.getD r []).getD (argmin ((T.getLastD []).dropLast)) 0 ∧
        q = (T.getD r []).getLastD 0 /
            (T.getD r []).getD (argmin ((T.getLastD []).dropLast)) 0 ∧
        (∀ k, k < m → eps < (T.getD k []).getD (argmin ((T.getLastD []).dropLast)) 0 →
          q ≤ (T.getD k []).getLastD 0 /
              (T.getD k []).getD (argmin ((T.getLastD []).dropLast)) 0 ∧
          ((T.getD k []).getLastD 0 /
              (T.getD k []).getD (argmin ((T.getLastD []).dropLast)) 0 = q → r ≤ k)) ∧
        simplexLoop m (fuel + 1) T i =
          simplexLoop m fuel (pivotOp T r (argmin ((T.getLastD []).dropLast))) (i + 1)) ∧
    simplexSolve 5 [1, 1] [[-1]] [1] true = .returned ⟨0, [0], .unbounded, 1⟩ := by
  refine ⟨?_, ?_, by decide⟩
  · intro hle
    exact simplexLoop_succ_unbounded hopt (selectLeaving_ratios_none hle)
  · intro j hj hpos
    obtain ⟨q, r, hsel, hrm, hposr, hq, hmin⟩ := selectLeaving_ratios_some hj hpos
    exact ⟨q, r, hsel, hrm, hposr, hq, hmin, simplexLoop_succ_pivot hopt hsel⟩

/-- C5 witness: the theorem applied at m = 1, T = [[-1,0,2],[-1,-1,0]]: the
objective row fails the optimality test, no constraint row has a positive
entry in the entering column, and the loop exits with status `unbounded`. -/
theorem C5_min_ratio_and_unbounded_witness :
    simplexLoop 1 5 [[-1, 0, 2], [-1, -1, 0]] 0 =
      .done [[-1, 0, 2], [-1, -1, 0]] 1 .unbounded :=
  (C5_min_ratio_and_unbounded 1 4 [[-1, 0, 2], [-1, -1, 0]] 0 (by decide)).1 (by decide)

/-- C6 counterexample: with c = [1], A = [[1,0]], b = [1] the shapes are
inconsistent (len c = 1 ≠ 2 columns of A), yet nothing fails before
tableau construction: the slack-augmented block is built (partial work
performed), and the error that eventually occurs is the stacking
`ValueError` mid-assembly — the program has no `DimensionError`.  With
c = [1,1,1], A = [[1,0]], b = [1], also inconsistent, assembly even
succeeds outright and nothing is ever rejected. -/
theorem C6_counterexample_no_dimension_check :
    hstack2 [[1, 0]] (eye 1) = some [[1, 0, 1]] ∧
    buildTableau [1] [[1, 0]] [1] true = none ∧
    buildTableau [1, 1, 1] [[1, 0]] [1] true =
      some [[1, 0, 1, 1], [-1, -1, -1, 0]] := by
  exact ⟨by decide, by decide, by decide⟩

/-- C6 (amended): `solve` performs no shape validation.  For any
rectangular `A` with m ≥ 1 rows, the slack block is always constructed
first (partial work on every input), and what failure there is, is numpy's
`ValueError` during assembly, occurring exactly when `b` does not have m
entries or `c` does not have (columns of A) + 1 entries — a condition that
is neither consistency of the shapes nor checked before construction. -/
theorem C6_no_dimension_error (c : Vec) (A : Mat) (b : Vec) (mx : Bool)
    (hA : rect A) (hm : 1 ≤ A.length) :
    (∃ As, hstack2 A (eye A.length) = some As) ∧
    (buildTableau c A b mx = none ↔
      b.length ≠ A.length ∨ c.length ≠ cols A + 1) :=
  ⟨⟨_, hstack2_some (eye_length A.length).symm⟩, buildTableau_none_iff c A b mx hA hm⟩

/-- C6 witness: the amended theorem applied at c = [9], A = [[1,0]],
b = [7]. -/
theorem C6_no_dimension_error_witness :
    (∃ As, hstack2 [[1, 0]] (eye 1) = some As) ∧
    (buildTableau [9] [[1, 0]] [7] false = none ↔
      ([7] : Vec).length ≠ ([[1, 0]] : Mat).length ∨
      ([9] : Vec).length ≠ cols [[1, 0]] + 1) :=
  C6_no_dimension_error [9] [[1, 0]] [7] false (by decide) (by decide)

/-- C7 counterexample: at T = [[-1,0,2],[-2,0,3],[-1,-1,0]] (m = 2) the
optimality test fails, yet no pivot is performed and the loop does not
continue: it exits at once with status `unbounded` (no constraint row has
an entry above the tolerance in the entering column), so the claim's
"otherwise a pivot is performed and the loop continues" is false at this
iteration. -/
theorem C7_counterexample_no_pivot_on_unbounded :
    ((([[-1, 0, 2], [-2, 0, 3], [-1, -1, 0]] : Mat).getLastD []).dropLast).all
        (fun x => decide (-eps ≤ x)) = false ∧
    simplexLoop 2 5 [[-1, 0, 2], [-2, 0, 3], [-1, -1, 0]] 0 =
      .done [[-1, 0, 2], [-2, 0, 3], [-1, -1, 0]] 1 .unbounded ∧
    simplexLoopPivots 2 5 [[-1, 0, 2], [-2, 0, 3], [-1, -1, 0]] = 0 := by
  exact ⟨by decide, by decide, by decide⟩

/-- C7 (amended): at each pivot-loop iteration, if every objective-row
entry except the final RHS cell is ≥ -ε the loop exits at once reporting
status `optimal`; otherwise, if some constraint row has entry > ε in the
entering column, a pivot is performed and the loop continues; and
otherwise — no such row — the loop exits with status `unbounded` without
pivoting.  The final conjunct is a closed solve-level run in which the
`optimal` status is reported inside the returned result dictionary. -/
theorem C7_optimality_test (m fuel : Nat) (T : Mat) (i : Nat) :
    ((∀ x ∈ (T.getLastD []).dropLast, -eps ≤ x) →
      simplexLoop m (fuel + 1) T i = .done T (i + 1) .optimal) ∧
    ((¬ ∀ x ∈ (T.getLastD []).dropLast, -eps ≤ x) →
      ∀ j, j < m → eps < (T.getD j []).getD (argmin ((T.getLastD []).dropLast)) 0 →
      ∃ r, simplexLoop m (fuel + 1) T i =
        simplexLoop m fuel (pivotOp T r (argmin ((T.getLastD []).dropLast))) (i + 1)) ∧
    ((¬ ∀ x ∈ (T.getLastD []).dropLast, -eps ≤ x) →
      (∀ j, j < m → (T.getD j []).getD (argmin ((T.getLastD []).dropLast)) 0 ≤ eps) →
      simplexLoop m (fuel + 1) T i = .done T (i + 1) .unbounded) ∧
    simplexSolve 5 [-2, -2] [[1]] [3] true = .returned ⟨0, [0], .optimal, 1⟩ := by
  have hoptify : (¬ ∀ x ∈ (T.getLastD []).dropLast, -eps ≤ x) →
      ((T.getLastD []).dropLast).all (fun x => decide (-eps ≤ x)) = false := by
    intro h
    rw [← Bool.not_eq_true, List.all_eq_true]
    intro hall
    exact h (fun x hx => of_decide_eq_true (hall x hx))
  refine ⟨?_, ?_, ?_, by decide⟩
  · intro h
    apply simplexLoop_succ_optimal
    rw [List.all_eq_true]
    intro x hx
    exact decide_eq_true (h x hx)
  · intro h j hj hpos
    obtain ⟨q, r, hsel, _, _, _, _⟩ := selectLeaving_ratios_some hj hpos
    exact ⟨r, simplexLoop_succ_pivot (hoptify h) hsel⟩
  · intro h hle
    exact simplexLoop_succ_unbounded (hoptify h) (selectLeaving_ratios_none hle)

/-- C7 witness: all three branches at concrete tableaus — an
already-optimal objective row exits with status `optimal`; a non-optimal
one with a positive entry in the entering column pivots and continues; a
non-optimal one with no positive entry exits with status `unbounded`. -/
theorem C7_optimality_test_witness :
    simplexLoop 1 3 [[1, 2], [0, 0]] 0 = .done [[1, 2], [0, 0]] 1 .optimal ∧
    (∃ r, simplexLoop 1 3 [[1, 1, 2], [-1, 0, 0]] 0 =
      simplexLoop 1 2 (pivotOp [[1, 1, 2], [-1, 0, 0]] r
        (argmin ((([[1, 1, 2], [-1, 0, 0]] : Mat).getLastD []).dropLast))) 1) ∧
    simplexLoop 1 3 [[-3, -1, 4], [-1, -2, 0]] 0 =
      .done [[-3, -1, 4], [-1, -2, 0]] 1 .unbounded := by
  refine ⟨?_, ?_, ?_⟩
  · exact (C7_optimality_test 1 2 [[1, 2], [0, 0]] 0).1 (by decide)
  · exact (C7_optimality_test 1 2 [[1, 1, 2], [-1, 0, 0]] 0).2.1 (by decide) 0
      (by decide) (by decide)
  · exact (C7_optimality_test 1 2 [[-3, -1, 4], [-1, -2, 0]] 0).2.2.1 (by decide)
      (by decide)

/-- C8 counterexample: at the spec's unbounded scenario c = [1,1],
A = [[1,-1]], b = [1] — an input a capped pivot loop would have to handle —
`solve` (run with a large budget of 1000) never returns a result of any
status, `max_iterations_exceeded` or otherwise: it raises `ValueError`
during tableau assembly. -/
theorem C8_counterexample_no_cap_status :
    ¬ ∃ r, simplexSolve 1000 [1, 1] [[1, -1]] [1] true = .returned r := by
  intro hex
  obtain ⟨r, hr⟩ := hex
  have h : simplexSolve 1000 [1, 1] [[1, -1]] [1] true = .raised .valueError := by
    decide
  rw [h] at hr
  exact SolveOut.noConfusion hr

/-- C8 (amended): `solve` enforces no iteration cap: it has no
`max_iterations` parameter and its `while True:` loop is guarded only by
the optimality break (plus the modelled unbounded exit).  On every
well-dimensioned input it terminates only because tableau assembly raises
first, never returning any result — so no result with status
`max_iterations_exceeded` ever exists. -/
theorem C8_no_iteration_cap (c : Vec) (A : Mat) (b : Vec) (mx : Bool) (fuel : Nat)
    (hA : rect A) (hm : 1 ≤ A.length) (hc : c.length = cols A) :
    ∀ r, simplexSolve fuel c A b mx ≠ .returned r := by
  intro r hr
  have hnone : buildTableau c A b mx = none :=
    (buildTableau_none_iff c A b mx hA hm).mpr (Or.inr (by omega))
  simp only [simplexSolve, hnone] at hr
  exact SolveOut.noConfusion hr

/-- C8 witness: the amended theorem applied at c = [1], A = [[1]],
b = [1], fuel 7, and an arbitrary concrete candidate result. -/
theorem C8_no_iteration_cap_witness :
    simplexSolve 7 [1] [[1]] [1] true ≠ .returned ⟨0, [], .optimal, 0⟩ :=
  C8_no_iteration_cap [1] [[1]] [1] true 7 (by decide) (by decide) (by decide)
    ⟨0, [], .optimal, 0⟩

/-- C9 counterexample: an input on which assembly happens to succeed and
whose initial tableau already passes the optimality test: no pivot is ever
performed, yet the returned result dictionary carries `iterations = 1`,
not 0, because the counter is incremented before the test. -/
theorem C9_counterexample_iterations_one :
    simplexSolve 5 [-1, -1] [[1]] [2] true = .returned ⟨0, [0], .optimal, 1⟩ := by
  decide

/-- C9 (amended): the `iterations` counter counts loop entries, not pivot
operations: it is incremented at the top of each pass, before the
optimality test, so whenever the loop exits at counter value n after k
pivots starting from count i, n = i + k + 1 — in particular an
initially-optimal tableau exits with counter 1, not 0. -/
theorem C9_iterations_counts_entries (m fuel : Nat) (T : Mat) (i n : Nat)
    (T2 : Mat) (st : Status) (h : simplexLoop m fuel T i = .done T2 n st) :
    n = i + simplexLoopPivots m fuel T + 1 := by
  induction fuel generalizing T i n T2 st with
  | zero => exact LoopOut.noConfusion h
  | succ f ih =>
    by_cases hopt : ((T.getLastD []).dropLast).all (fun x => decide (-eps ≤ x)) = true
    · rw [simplexLoop_succ_optimal hopt] at h
      rw [simplexLoopPivots_succ_optimal hopt]
      injection h with h1 h2 h3
      omega
    · rw [Bool.not_eq_true] at hopt
      rcases hq : selectLeaving (ratios T (argmin ((T.getLastD []).dropLast)) m) with ⟨qq, r⟩
      rcases qq with _ | qq
      · rw [simplexLoop_succ_unbounded hopt (by rw [hq])] at h
        rw [simplexLoopPivots_succ_unbounded hopt (by rw [hq])]
        injection h with h1 h2 h3
        omega
      · rw [simplexLoop_succ_pivot hopt hq] at h
        rw [simplexLoopPivots_succ_pivot hopt hq]
        have := ih _ _ _ _ _ h
        omega

/-- C9 witness: the amended theorem instantiated at the run
`simplexLoop 1 5 [[1,2],[0,0]] 0`, whose initial tableau is already
optimal: the loop exits with counter 1 after 0 pivots, 1 = 0 + 0 + 1. -/
theorem C9_iterations_counts_entries_witness :
    (1 : Nat) = 0 + simplexLoopPivots 1 5 [[1, 2], [0, 0]] + 1 :=
  C9_iterations_counts_entries 1 5 [[1, 2], [0, 0]] 0 1
    [[1, 2], [0, 0]] .optimal (by decide)

end SimplexMethod
